import Mathlib

/-!
Shallow embedding of `trio/_tools/gen_exports.py`, the trio code-generation
script that scans source files for methods carrying the `@_public` decorator
and synthesizes free-standing forwarding functions.

Python AST nodes are embedded as an inductive `Node`; `ast.walk` (a
breadth-first queue traversal) and a depth-first (source-order) traversal are
both defined so that the yield order of `get_public_methods` can be compared
against the order claimed by the spec.  String-building functions
(`create_passthrough_args`, the `TEMPLATE`, header assembly,
`gen_public_wrappers_source`) are translated line by line from the source;
fallible steps (the `method.args.args[0]` index and the `== "self"` assert)
are modelled with `Except`.
-/

namespace GenExports

/-- Constant literal values appearing in the signatures this tool processes
(used by the renderer model for default values and by docstring detection). -/
inductive ConstVal where
  | str (s : String)
  | intval (n : Int)
  | nonev
  deriving DecidableEq

/-- An `ast.arg` node; the generator only ever reads its `.arg` field
(the parameter name). -/
structure Arg where
  arg : String
  deriving DecidableEq

/-- The `ast.arguments` record, restricted to the fields `gen_exports.py`
reads (`args`, `vararg`, `kwonlyargs`, `kwarg`) plus the default-value lists
that the external renderer consumes.  The input convention of the tool has no
positional-only parameters (a leading `self` in `posonlyargs` would make the
`args.args[0] == "self"` assert fail), so `posonlyargs` is not modelled. -/
structure Arguments where
  args : List Arg
  vararg : Option Arg := none
  kwonlyargs : List Arg := []
  kw_defaults : List (Option ConstVal) := []
  kwarg : Option Arg := none
  defaults : List ConstVal := []
  deriving DecidableEq

/-- Embedded Python AST nodes: the statement/expression shapes that
`gen_exports.py` inspects (function definitions with their decorator lists and
bodies, class and module containers, names, attribute access, expression
statements over constants, `pass`). -/
inductive Node where
  | module (body : List Node)
  | ClassDef (name : String) (body : List Node) (decorator_list : List Node)
  | FunctionDef (name : String) (args : Arguments) (body : List Node)
      (decorator_list : List Node)
  | AsyncFunctionDef (name : String) (args : Arguments) (body : List Node)
      (decorator_list : List Node)
  | nameexpr (id : String)
  | attrexpr (value : Node) (attr : String)
  | exprstmt (value : Node)
  | constant (val : ConstVal)
  | passstmt

/-- Child nodes in `ast.iter_child_nodes` field order (`body` before
`decorator_list`).  The `arguments` subtree of a function definition contains
no statements, hence no function definitions, so omitting it cannot change
which nodes a traversal yields as public methods nor their relative order. -/
def children : Node → List Node
  | .module body => body
  | .ClassDef _ body decs => body ++ decs
  | .FunctionDef _ _ body decs => body ++ decs
  | .AsyncFunctionDef _ _ body decs => body ++ decs
  | .nameexpr _ => []
  | .attrexpr v _ => [v]
  | .exprstmt v => [v]
  | .constant _ => []
  | .passstmt => []

mutual

/-- Size of a node, the termination measure for the two traversals below. -/
def nsize : Node → Nat
  | .module body => 1 + nsizeL body
  | .ClassDef _ body decs => 1 + nsizeL body + nsizeL decs
  | .FunctionDef _ _ body decs => 1 + nsizeL body + nsizeL decs
  | .AsyncFunctionDef _ _ body decs => 1 + nsizeL body + nsizeL decs
  | .nameexpr _ => 1
  | .attrexpr v _ => 1 + nsize v
  | .exprstmt v => 1 + nsize v
  | .constant _ => 1
  | .passstmt => 1

/-- Total size of a list of nodes. -/
def nsizeL : List Node → Nat
  | [] => 0
  | n :: l => nsize n + nsizeL l

end

theorem nsizeL_append (l1 l2 : List Node) :
    nsizeL (l1 ++ l2) = nsizeL l1 + nsizeL l2 := by
  induction l1 with
  | nil => simp [nsizeL]
  | cons a l ih => simp [nsizeL, ih]; omega

theorem children_nsizeL_lt (n : Node) : nsizeL (children n) < nsize n := by
  cases n <;> simp only [children, nsize, nsizeL, nsizeL_append] <;> omega

/-- The queue-based traversal of `ast.walk`: pop a node from the front of the
worklist, append its children at the back, yield the node.  This is a
breadth-first (level) order. -/
def walk : List Node → List Node
  | [] => []
  | n :: todo => n :: walk (todo ++ children n)
termination_by l => nsizeL l
decreasing_by
  simp [nsizeL, nsizeL_append]
  have := children_nsizeL_lt n
  omega

/-- Depth-first preorder traversal: the order in which nodes appear in the
source text.  Used to state what the spec claims about yield order. -/
def dfs : List Node → List Node
  | [] => []
  | n :: rest => n :: dfs (children n ++ rest)
termination_by l => nsizeL l
decreasing_by
  simp [nsizeL, nsizeL_append]
  have := children_nsizeL_lt n
  omega

/-- Embeds `is_function`: is the node an (async) function definition. -/
def is_function : Node → Bool
  | .FunctionDef _ _ _ _ => true
  | .AsyncFunctionDef _ _ _ _ => true
  | _ => false

/-- One decorator test from `is_public`:
`isinstance(decorator, ast.Name) and decorator.id == "_public"`. -/
def isPublicDec : Node → Bool
  | .nameexpr id => id == "_public"
  | _ => false

/-- Embeds `is_public`: a function definition one of whose decorators is
exactly the name `_public`. -/
def is_public : Node → Bool
  | .FunctionDef _ _ _ decs => decs.any isPublicDec
  | .AsyncFunctionDef _ _ _ decs => decs.any isPublicDec
  | _ => false

/-- The decorator list of a node (empty for non-functions); used to state
the characterization of `is_public`. -/
def decoratorsOf : Node → List Node
  | .FunctionDef _ _ _ decs => decs
  | .AsyncFunctionDef _ _ _ decs => decs
  | _ => []

/-- Embeds `get_public_methods`: filter `ast.walk` by `is_public`. -/
def get_public_methods (tree : Node) : List Node :=
  (walk [tree]).filter is_public

/-- Name of a function-definition node (used to compare yield orders). -/
def nodeName : Node → String
  | .FunctionDef nm _ _ _ => nm
  | .AsyncFunctionDef nm _ _ _ => nm
  | _ => ""

/-- Embeds `create_passthrough_args`: build the forwarding-call argument
string, appending in source order positional names, `*vararg`, `name=name`
for keyword-only parameters, and `**kwarg`. -/
def create_passthrough_args (a : Arguments) : String :=
  let call_args := a.args.map (fun x => x.arg)
  let call_args := call_args ++
    (match a.vararg with
     | some v => ["*" ++ v.arg]
     | none => [])
  let call_args := call_args ++ a.kwonlyargs.map (fun x => x.arg ++ "=" ++ x.arg)
  let call_args := call_args ++
    (match a.kwarg with
     | some k => ["**" ++ k.arg]
     | none => [])
  "(" ++ String.intercalate ", " call_args ++ ")"

/-- One input descriptor, embedding the `File` attrs class. -/
structure File where
  path : String
  modname : String
  platform : String := ""
  imports : String := ""
  deriving DecidableEq

/-- Splits a character list at every occurrence of the separator character
(the separators are dropped; `n` separators yield `n + 1` pieces). -/
def splitOnChar (c : Char) : List Char → List (List Char)
  | [] => [[]]
  | x :: xs =>
    let r := splitOnChar c xs
    if x = c then [] :: r
    else
      match r with
      | [] => [[x]]
      | h :: t => (x :: h) :: t

/-- Substring containment over character lists (the Python test `sub in s`). -/
def containsSub (needle : List Char) : List Char → Bool
  | [] => needle.isPrefixOf []
  | x :: t => needle.isPrefixOf (x :: t) || containsSub needle t

/-- The Python substring containment test `sub in s`. -/
def strContains (s sub : String) : Bool := containsSub sub.toList s.toList

/-- The Python test `s.startswith(pre)`. -/
def strStartsWith (s pre : String) : Bool := pre.toList.isPrefixOf s.toList

/-- Replacement of every non-overlapping occurrence of `needle` (left to
right) over character lists, fuel-indexed so the recursion is structural;
fuel at least the length of the text is enough, since every step consumes at
least one character of it. -/
def replaceListAux (needle repl : List Char) : Nat → List Char → List Char
  | 0, hay => hay
  | _ + 1, [] => []
  | fuel + 1, x :: t =>
    if needle ≠ [] ∧ needle.isPrefixOf (x :: t) then
      repl ++ replaceListAux needle repl fuel ((x :: t).drop needle.length)
    else
      x :: replaceListAux needle repl fuel t

/-- The Python call `s.replace(needle, repl)` (all non-overlapping occurrences,
left to right; the identity when the needle does not occur). -/
def strReplace (s needle repl : String) : String :=
  String.mk (replaceListAux needle.toList repl.toList s.toList.length s.toList)

/-- Embeds `textwrap.indent text prfx`: prepend the prefix to every line that
has any non-whitespace content (the Python default predicate is
`line.strip()`). -/
def indent (text prfx : String) : String :=
  String.intercalate "\n"
    ((splitOnChar '\n' text.toList).map (fun l =>
      if l.all Char.isWhitespace then String.mk l else prfx ++ String.mk l))

/-- Embeds `pathlib.Path(...).stem`: the final path component minus its last
extension. -/
def stem (p : String) : String :=
  let base := String.mk ((splitOnChar '/' p.toList).getLastD [])
  let parts := (splitOnChar '.' base.toList).map String.mk
  if parts.length ≤ 1 then base else String.intercalate "." parts.dropLast

/-- Modelled from the spec: rendering of a constant literal by the external
code printer (`astor`, outside this repository). -/
def renderConst : ConstVal → String
  | .str s => "\"" ++ s ++ "\""
  | .intval n => toString n
  | .nonev => "None"

/-- Modelled from the spec: the external renderer prints a parameter list
with positional defaults aligned to the last positional parameters,
keyword-only parameters after `*` (or after `*vararg`) with their own
defaults, and `**kwarg` last. -/
def renderParams (a : Arguments) : String :=
  let firstDefault := a.args.length - a.defaults.length
  let pos := a.args.enum.map (fun p =>
    if firstDefault ≤ p.1 then
      p.2.arg ++ "=" ++ renderConst (a.defaults.getD (p.1 - firstDefault) .nonev)
    else p.2.arg)
  let star :=
    match a.vararg with
    | some v => ["*" ++ v.arg]
    | none => if a.kwonlyargs.isEmpty then [] else ["*"]
  let kws := a.kwonlyargs.enum.map (fun p =>
    match a.kw_defaults.getD p.1 none with
    | some c => p.2.arg ++ "=" ++ renderConst c
    | none => p.2.arg)
  let kw :=
    match a.kwarg with
    | some k => ["**" ++ k.arg]
    | none => []
  "(" ++ String.intercalate ", " (pos ++ star ++ kws ++ kw) ++ ")"

/-- Modelled from the spec: expression rendering by the external printer for
the expression shapes in scope here. -/
def renderExprNode : Node → String
  | .nameexpr id => id
  | .constant c => renderConst c
  | .attrexpr v a => renderExprNode v ++ "." ++ a
  | _ => "<expr>"

/-- Modelled from the spec: statement rendering (at one indentation level) by
the external printer; a leading string-constant expression statement is a
docstring and prints triple-quoted. -/
def renderStmt : Node → String
  | .exprstmt (.constant (.str s)) => "    \"\"\"" ++ s ++ "\"\"\"\n"
  | .exprstmt v => "    " ++ renderExprNode v ++ "\n"
  | .passstmt => "    pass\n"
  | _ => "    pass\n"

/-- The view of an (async) function-definition node that the generator loop
manipulates: name, arguments, body, decorators, and whether the definition is
asynchronous. -/
structure Method where
  name : String
  args : Arguments
  body : List Node
  decorator_list : List Node
  isAsync : Bool

/-- Views a tree node as a `Method` (function definitions only). -/
def asMethod : Node → Option Method
  | .FunctionDef nm args body decs => some ⟨nm, args, body, decs, false⟩
  | .AsyncFunctionDef nm args body decs => some ⟨nm, args, body, decs, true⟩
  | _ => none

/-- Modelled from the spec: the external renderer `astor.to_source` prints a
transformed method as its `def`/`async def` line followed by its (possibly
empty) body. -/
def to_source (m : Method) : String :=
  (if m.isAsync then "async def " else "def ") ++ m.name ++ renderParams m.args ++
    ":\n" ++ String.join (m.body.map renderStmt)

/-- The fatal generation-time errors: `method.args.args[0]` on an empty list
(IndexError) and the failed `assert method.args.args[0].arg == "self"`
(AssertionError). -/
inductive GenError where
  | indexError
  | assertionError
  deriving DecidableEq

/-- Embeds lines 132-133 of `gen_exports.py`:
`assert method.args.args[0].arg == "self"` followed by
`del method.args.args[0]`.  Indexing an empty parameter list raises, a first
parameter not named `self` fails the assert, otherwise the receiver parameter
is removed. -/
def stripSelf (a : Arguments) : Except GenError Arguments :=
  match a.args with
  | [] => .error .indexError
  | x :: rest =>
    if x.arg = "self" then .ok { a with args := rest }
    else .error .assertionError

/-- One decorator test from the `is_cm` loop:
`isinstance(dec, ast.Name) and dec.id == "contextmanager"`. -/
def isCmDec : Node → Bool
  | .nameexpr id => id == "contextmanager"
  | _ => false

/-- Embeds the `is_cm` detection loop over the decorator list. -/
def is_cm (decs : List Node) : Bool := decs.any isCmDec

/-- Embeds `ast.get_docstring` as the generator uses it: the docstring exists
iff the first body statement is an expression statement holding a string
constant. -/
def get_docstring : List Node → Option String
  | .exprstmt (.constant (.str s)) :: _ => some s
  | _ => none

/-- Embeds the body replacement: `del method.body[:]` when there is no
docstring, `del method.body[1:]` otherwise. -/
def newBody (body : List Node) : List Node :=
  if get_docstring body = none then [] else body.take 1

/-- The in-place mutations the loop applies to a marked method node before
rendering: remove the receiver parameter (`del method.args.args[0]` guarded by
the `self` assert), clear the decorator list, and truncate the body to its
docstring. -/
def transformMethod (m : Method) : Except GenError Method := do
  let args2 ← stripSelf m.args
  return { m with args := args2, decorator_list := [], body := newBody m.body }

/-- The function-definition text: `astor.to_source` output, then the
`->Iterator`/`->ContextManager` replacement for context managers, then the
`reschedule` type-ignore workaround for `_run.py`. -/
def renderedDef (file : File) (cm : Bool) (m : Method) : String :=
  let func := to_source m
  let func := if cm then strReplace func "->Iterator" "->ContextManager" else func
  if stem file.path = "_run" && strStartsWith func "def reschedule" then
    strReplace func "None:\n" "None:  # type: ignore[has-type]\n"
  else func

/-- Embeds the `TEMPLATE` string with its three `format` holes filled: the
text between the holes is copied verbatim from `gen_exports.py`. -/
def TEMPLATE (awaitStr modname call : String) : String :=
  "locals()[LOCALS_KEY_KI_PROTECTION_ENABLED] = True\ntry:\n    return" ++
    awaitStr ++ "GLOBAL_RUN_CONTEXT." ++ modname ++ "." ++ call ++
    "\nexcept AttributeError:\n    raise RuntimeError(\"must be called from async context\")\n"

/-- Embeds one iteration of the generation loop of
`gen_public_wrappers_source`: detect `contextmanager`, mutate the method node,
build the passthrough arguments, render the definition, fill the template
(awaiting iff the method is asynchronous), and append the template indented by
four spaces. -/
def processMethod (file : File) (m : Method) : Except GenError String := do
  let cm := is_cm m.decorator_list
  let m2 ← transformMethod m
  let new_args := create_passthrough_args m2.args
  let func := renderedDef file cm m2
  let templ := TEMPLATE (if m.isAsync then " await " else " ")
    file.modname (m2.name ++ new_args)
  return func ++ indent templ "    "

/-- The generation loop over all public methods, collecting the snippets and
propagating the first fatal error. -/
def genSnippets (file : File) : List Method → Except GenError (List String)
  | [] => .ok []
  | m :: rest => do
    let s ← processMethod file m
    let ss ← genSnippets file rest
    return s :: ss

/-- The fixed `HEADER` block, copied verbatim from `gen_exports.py`. -/
def HEADER : String :=
  "# ***********************************************************\n" ++
  "# ******* WARNING: AUTOGENERATED! ALL EDITS WILL BE LOST ******\n" ++
  "# *************************************************************\n" ++
  "# Don\x27t lint this file, generation will not format this too nicely.\n" ++
  "# isort: skip_file\n" ++
  "# fmt: off\n" ++
  "from __future__ import annotations\n" ++
  "\n" ++
  "from ._ki import LOCALS_KEY_KI_PROTECTION_ENABLED\n" ++
  "from ._run import GLOBAL_RUN_CONTEXT\n"

/-- The fixed `FOOTER` block. -/
def FOOTER : String := "# fmt: on\n"

/-- Embeds `gen_public_wrappers_source`: assemble the header (with the
optional extra-import block and platform assert), generate one snippet per
public method of the parsed tree, and join everything with blank lines. -/
def gen_public_wrappers_source (file : File) (tree : Node) :
    Except GenError String := do
  let header := [HEADER]
  let header := header ++ (if file.imports = "" then [] else [file.imports])
  let header := header ++
    (if file.platform = "" then []
     else
       (if strContains file.imports "TYPE_CHECKING" then []
        else ["from typing import TYPE_CHECKING\n"]) ++
       (if strContains file.imports "import sys" then [] else ["import sys\n"]) ++
       ["\nassert not TYPE_CHECKING or sys.platform==\"" ++ file.platform ++ "\"\n"])
  let snippets ← genSnippets file ((get_public_methods tree).filterMap asMethod)
  return String.intercalate "\n\n" ([String.join header] ++ snippets ++ [FOOTER])

/-- Embeds `matches_disk_files` over a disk modelled as a partial map from
path to file text: `False` as soon as a path is absent or its text differs
from the freshly computed text. -/
def matches_disk_files (disk : String → Option String) :
    List (String × String) → Bool
  | [] => true
  | (new_path, new_source) :: rest =>
    match disk new_path with
    | none => false
    | some old_source =>
      if old_source = new_source then matches_disk_files disk rest else false

/-- Embeds the mode branch of `process` over the computed `new_files`
association (output path, generated source), pairs built by the scan loop from
the descriptors (the `_generated` prefix on the basename).  Returns the disk
after the run and the process exit status: verify mode (`do_test = true`)
compares and exits 1 on any mismatch, touching nothing; regenerate mode
overwrites every output path. -/
def process (disk : String → Option String)
    (new_files : List (String × String)) (do_test : Bool) :
    (String → Option String) × Nat :=
  if do_test then
    if matches_disk_files disk new_files then (disk, 0) else (disk, 1)
  else
    (new_files.foldl (fun d ps => fun q => if q = ps.1 then some ps.2 else d q)
      disk, 0)

/-! Concrete fixtures used by witnesses and counterexamples. -/

/-- A one-parameter (`self` only) argument list. -/
def selfArgs : Arguments := { args := [⟨"self"⟩] }

/-- A marked method `h` nested one class deeper than `f`. -/
def hNode : Node := .FunctionDef "h" selfArgs [.passstmt] [.nameexpr "_public"]

/-- A marked method `f` at the outer class level. -/
def fNode : Node := .FunctionDef "f" selfArgs [.passstmt] [.nameexpr "_public"]

/-- A module whose class `A` holds an inner class (with marked method `h`,
textually first) followed by marked method `f`: marked methods at two
different nesting depths. -/
def nestedTree : Node :=
  .module [.ClassDef "A" [.ClassDef "Inner" [hNode] [], fNode] []]

/-- The signature-fidelity example of the spec, after receiver removal:
positional `a, b`, variadic `*rest`, keyword-only `c` (default `1`),
variadic keyword `**kw`. -/
def exArgsC1 : Arguments :=
  { args := [⟨"a"⟩, ⟨"b"⟩], vararg := some ⟨"rest"⟩, kwonlyargs := [⟨"c"⟩],
    kw_defaults := [some (.intval 1)], kwarg := some ⟨"kw"⟩ }

/-- The end-to-end example of the spec: async `def f(self, x, *, y=2)` with a
docstring and a further body statement, marked public. -/
def exF : Method :=
  { name := "f",
    args := { args := [⟨"self"⟩, ⟨"x"⟩], kwonlyargs := [⟨"y"⟩],
              kw_defaults := [some (.intval 2)] },
    body := [.exprstmt (.constant (.str "doc")), .passstmt],
    decorator_list := [.nameexpr "_public"],
    isAsync := true }

/-- A synchronous marked method `def g(self, x)` with no docstring. -/
def exG : Method :=
  { name := "g", args := { args := [⟨"self"⟩, ⟨"x"⟩] },
    body := [.passstmt], decorator_list := [.nameexpr "_public"],
    isAsync := false }

/-- The node record `exG` is mutated into by the generation loop. -/
def exGT : Method :=
  { name := "g", args := { args := [⟨"x"⟩] }, body := [],
    decorator_list := [], isAsync := false }

/-- An input descriptor for the fixtures. -/
def exFile : File := { path := "trio/_core/_run.py", modname := "runner" }

/-- A marked method with an empty parameter list. -/
def noArgsMethod : Method :=
  { name := "bad", args := { args := [] }, body := [],
    decorator_list := [.nameexpr "_public"], isAsync := false }

/-- The tree node corresponding to `noArgsMethod`. -/
def badNode : Node := .FunctionDef "bad" { args := [] } [] [.nameexpr "_public"]

/-- A module containing one marked method with no parameters. -/
def badTree : Node := .module [.ClassDef "A" [badNode] []]

/-- A one-entry disk holding exactly the generated text for path `p`. -/
def exDisk : String → Option String :=
  fun q => if q = "p" then some "text" else none

/-- A computed new-files association with one entry matching `exDisk`. -/
def exNewFiles : List (String × String) := [("p", "text")]

/-- A marked method whose first parameter is named `cls`, not `self`. -/
def clsMethod : Method :=
  { name := "c", args := { args := [⟨"cls"⟩, ⟨"x"⟩] }, body := [],
    decorator_list := [.nameexpr "_public"], isAsync := false }

/-! Helper lemmas about the traversals and the generation loop. -/

theorem nsize_pos (n : Node) : 1 ≤ nsize n := by
  cases n <;> simp only [nsize] <;> omega

theorem dfs_append_aux :
    ∀ (k : Nat) (l1 l2 : List Node), nsizeL l1 ≤ k →
      dfs (l1 ++ l2) = dfs l1 ++ dfs l2 := by
  intro k
  induction k with
  | zero =>
    intro l1 l2 h
    cases l1 with
    | nil => simp [dfs]
    | cons n rest =>
      exfalso
      have := nsize_pos n
      simp only [nsizeL] at h
      omega
  | succ k ih =>
    intro l1 l2 h
    cases l1 with
    | nil => simp [dfs]
    | cons n rest =>
      have hlt := children_nsizeL_lt n
      have hsz : nsizeL (children n ++ rest) ≤ k := by
        simp only [nsizeL, nsizeL_append] at h ⊢
        omega
      calc dfs ((n :: rest) ++ l2)
          = n :: dfs (children n ++ (rest ++ l2)) := by simp [dfs]
        _ = n :: dfs ((children n ++ rest) ++ l2) := by rw [List.append_assoc]
        _ = n :: (dfs (children n ++ rest) ++ dfs l2) := by rw [ih _ _ hsz]
        _ = (n :: dfs (children n ++ rest)) ++ dfs l2 := rfl
        _ = dfs (n :: rest) ++ dfs l2 := by simp [dfs]

theorem dfs_append (l1 l2 : List Node) :
    dfs (l1 ++ l2) = dfs l1 ++ dfs l2 :=
  dfs_append_aux (nsizeL l1) l1 l2 le_rfl

theorem walk_perm_dfs_aux :
    ∀ (k : Nat) (l : List Node), nsizeL l ≤ k → (walk l).Perm (dfs l) := by
  intro k
  induction k with
  | zero =>
    intro l h
    cases l with
    | nil => simp [walk, dfs]
    | cons n rest =>
      exfalso
      have := nsize_pos n
      simp only [nsizeL] at h
      omega
  | succ k ih =>
    intro l h
    cases l with
    | nil => simp [walk, dfs]
    | cons n rest =>
      have hlt := children_nsizeL_lt n
      have hsz : nsizeL (rest ++ children n) ≤ k := by
        simp only [nsizeL, nsizeL_append] at h ⊢
        omega
      have h1 : walk (n :: rest) = n :: walk (rest ++ children n) := by
        simp [walk]
      have h2 : dfs (n :: rest) = n :: (dfs (children n) ++ dfs rest) := by
        simp [dfs, dfs_append]
      rw [h1, h2]
      have p1 : (walk (rest ++ children n)).Perm (dfs (rest ++ children n)) :=
        ih _ hsz
      have p2 : (dfs (rest ++ children n)).Perm (dfs (children n) ++ dfs rest) := by
        rw [dfs_append]
        exact List.perm_append_comm
      exact (p1.trans p2).cons n

theorem walk_perm_dfs (l : List Node) : (walk l).Perm (dfs l) :=
  walk_perm_dfs_aux (nsizeL l) l le_rfl

theorem transformMethod_ok (m : Method) (a : Arg) (rest : List Arg)
    (h : m.args.args = a :: rest) (hs : a.arg = "self") :
    transformMethod m = .ok { m with
      args := { m.args with args := rest },
      decorator_list := [],
      body := newBody m.body } := by
  simp [transformMethod, stripSelf, h, hs, Bind.bind, Except.bind,
    Pure.pure, Except.pure]

theorem processMethod_ok (file : File) (m m2 : Method)
    (h : transformMethod m = .ok m2) :
    processMethod file m = .ok (renderedDef file (is_cm m.decorator_list) m2 ++
      indent (TEMPLATE (if m.isAsync then " await " else " ") file.modname
        (m2.name ++ create_passthrough_args m2.args)) "    ") := by
  simp [processMethod, h, Bind.bind, Except.bind, Pure.pure, Except.pure]

theorem processMethod_nilargs (file : File) (m : Method)
    (h : m.args.args = []) :
    processMethod file m = .error .indexError := by
  simp [processMethod, transformMethod, stripSelf, h, Bind.bind, Except.bind,
    Pure.pure, Except.pure]

theorem processMethod_assert (file : File) (m : Method) (a : Arg)
    (rest : List Arg) (h : m.args.args = a :: rest) (hs : a.arg ≠ "self") :
    processMethod file m = .error .assertionError := by
  simp [processMethod, transformMethod, stripSelf, h, hs, Bind.bind,
    Except.bind, Pure.pure, Except.pure]

theorem genSnippets_error (file : File) :
    ∀ (l : List Method), (∃ m ∈ l, ∃ e, processMethod file m = .error e) →
      ∃ e, genSnippets file l = .error e := by
  intro l
  induction l with
  | nil =>
    rintro ⟨m, hm, _⟩
    cases hm
  | cons x xs ih =>
    rintro ⟨m, hm, e, he⟩
    cases hx : processMethod file x with
    | error e2 =>
      exact ⟨e2, by simp [genSnippets, hx, Bind.bind, Except.bind]⟩
    | ok s =>
      rcases List.mem_cons.mp hm with rfl | hmem
      · rw [hx] at he
        cases he
      · obtain ⟨e3, h3⟩ := ih ⟨m, hmem, e, he⟩
        exact ⟨e3, by simp [genSnippets, hx, h3, Bind.bind, Except.bind,
          Pure.pure, Except.pure]⟩

theorem gen_error (file : File) (tree : Node)
    (h : ∃ e, genSnippets file
      ((get_public_methods tree).filterMap asMethod) = .error e) :
    ∃ e, gen_public_wrappers_source file tree = .error e := by
  obtain ⟨e, he⟩ := h
  exact ⟨e, by simp [gen_public_wrappers_source, he, Bind.bind, Except.bind]⟩

theorem matches_disk_files_iff (disk : String → Option String)
    (l : List (String × String)) :
    matches_disk_files disk l = true ↔ ∀ ps ∈ l, disk ps.1 = some ps.2 := by
  induction l with
  | nil => simp [matches_disk_files]
  | cons ps rest ih =>
    obtain ⟨p, s⟩ := ps
    cases hd : disk p with
    | none =>
      have hm : matches_disk_files disk ((p, s) :: rest) = false := by
        simp [matches_disk_files, hd]
      rw [hm]
      simp only [Bool.false_eq_true, false_iff]
      intro hall
      have h1 := hall (p, s) (List.mem_cons_self _ _)
      simp [hd] at h1
    | some old =>
      by_cases he : old = s
      · subst he
        have hm : matches_disk_files disk ((p, old) :: rest) =
            matches_disk_files disk rest := by
          simp [matches_disk_files, hd]
        rw [hm, ih]
        constructor
        · intro hall q hq
          rcases List.mem_cons.mp hq with rfl | hq2
          · exact hd
          · exact hall q hq2
        · intro hall q hq
          exact hall q (List.mem_cons_of_mem _ hq)
      · have hm : matches_disk_files disk ((p, s) :: rest) = false := by
          simp [matches_disk_files, hd, he]
        rw [hm]
        simp only [Bool.false_eq_true, false_iff]
        intro hall
        have h1 := hall (p, s) (List.mem_cons_self _ _)
        simp [hd] at h1
        exact he h1

/-! The claims. -/

/-- C1: the forwarding-call argument string built by `create_passthrough_args`
lists, in order, each remaining positional parameter by name in declared
order, then the variadic-positional parameter with its `*` marker, then each
keyword-only parameter as a `name=name` binding, then the variadic-keyword
parameter with `**` last; on the example signature of the spec
(`a, b, *rest, c=1` keyword-only, `**kw`) it renders
`(a, b, *rest, c=c, **kw)`, so every parameter is passed through unchanged. -/
theorem spec_C1 :
    (∀ a : Arguments, create_passthrough_args a =
      "(" ++ String.intercalate ", "
        (a.args.map Arg.arg ++
         (a.vararg.map (fun v => "*" ++ v.arg)).toList ++
         a.kwonlyargs.map (fun k => k.arg ++ "=" ++ k.arg) ++
         (a.kwarg.map (fun k => "**" ++ k.arg)).toList) ++ ")") ∧
    create_passthrough_args exArgsC1 = "(a, b, *rest, c=c, **kw)" := by
  constructor
  · intro a
    rcases a with ⟨args, va, kos, kds, kw, ds⟩
    cases va <;> cases kw <;> simp [create_passthrough_args]
  · rfl

/-- C1 witness: the general shape instantiated at the example signature. -/
theorem spec_C1_witness :
    create_passthrough_args exArgsC1 =
      "(" ++ String.intercalate ", "
        (exArgsC1.args.map Arg.arg ++
         (exArgsC1.vararg.map (fun v => "*" ++ v.arg)).toList ++
         exArgsC1.kwonlyargs.map (fun k => k.arg ++ "=" ++ k.arg) ++
         (exArgsC1.kwarg.map (fun k => "**" ++ k.arg)).toList) ++ ")" :=
  spec_C1.1 exArgsC1

set_option maxRecDepth 8000 in
/-- C2: for every method the loop accepts, the generated text is the rendered
definition followed by the template body indented four spaces - the flag
assignment, the `try`/`return` of the active-context call with ` await `
inserted exactly when the method is asynchronous, and the `except
AttributeError` arm raising the must-be-called-from-async-context
`RuntimeError` (what the spec calls the "must be called from an active context" error).
The two closed conjuncts exhibit the full generated text: for the
async end-to-end example method `f` of the spec the delegation line is
`return await GLOBAL_RUN_CONTEXT.runner.f(x, y=y)`, and for the synchronous
`g` no `await` appears. -/
theorem spec_C2 :
    (∀ (file : File) (m m2 : Method), transformMethod m = .ok m2 →
      processMethod file m = .ok (renderedDef file (is_cm m.decorator_list) m2 ++
        indent (TEMPLATE (if m.isAsync then " await " else " ") file.modname
          (m2.name ++ create_passthrough_args m2.args)) "    ")) ∧
    processMethod exFile exF = .ok "async def f(x, *, y=2):\n    \"\"\"doc\"\"\"\n    locals()[LOCALS_KEY_KI_PROTECTION_ENABLED] = True\n    try:\n        return await GLOBAL_RUN_CONTEXT.runner.f(x, y=y)\n    except AttributeError:\n        raise RuntimeError(\"must be called from async context\")\n" ∧
    processMethod exFile exG = .ok "def g(x):\n    locals()[LOCALS_KEY_KI_PROTECTION_ENABLED] = True\n    try:\n        return GLOBAL_RUN_CONTEXT.runner.g(x)\n    except AttributeError:\n        raise RuntimeError(\"must be called from async context\")\n" := by
  refine ⟨?_, ?_, ?_⟩
  · intro file m m2 h
    exact processMethod_ok file m m2 h
  · rfl
  · rfl

/-- C2 witness: the general conjunct applied to the concrete synchronous
method `g`. -/
theorem spec_C2_witness :
    processMethod exFile exG = .ok (renderedDef exFile (is_cm exG.decorator_list)
      exGT ++ indent (TEMPLATE (if exG.isAsync then " await " else " ")
        exFile.modname (exGT.name ++ create_passthrough_args exGT.args)) "    ") :=
  spec_C2.1 exFile exG exGT rfl

/-- C3: in verify mode the run fails (exit status 1, hence nonzero) exactly
when some output path is absent from disk or its on-disk text differs from
the freshly computed text, it passes (exit status 0) exactly when every
output file is present with identical text, and the disk is returned
untouched - nothing is written. -/
theorem spec_C3 (disk : String → Option String)
    (new_files : List (String × String)) :
    (process disk new_files true).1 = disk ∧
    ((process disk new_files true).2 = 0 ↔
      ∀ ps ∈ new_files, disk ps.1 = some ps.2) ∧
    ((process disk new_files true).2 ≠ 0 ↔
      ∃ ps ∈ new_files, disk ps.1 = none ∨
        ∃ old, disk ps.1 = some old ∧ old ≠ ps.2) := by
  have key := matches_disk_files_iff disk new_files
  have neq_iff : ∀ p s, ¬ disk p = some s ↔
      (disk p = none ∨ ∃ old, disk p = some old ∧ old ≠ s) := by
    intro p s
    cases hd : disk p <;> simp
  have hdisk : (process disk new_files true).1 = disk := by
    cases hm : matches_disk_files disk new_files <;> simp [process, hm]
  have hexit : (process disk new_files true).2 = 0 ↔
      matches_disk_files disk new_files = true := by
    cases hm : matches_disk_files disk new_files <;> simp [process, hm]
  refine ⟨hdisk, ?_, ?_⟩
  · rw [hexit, key]
  · rw [ne_eq, hexit, key]
    constructor
    · intro hnall
      push_neg at hnall
      obtain ⟨ps, hmem, hne⟩ := hnall
      exact ⟨ps, hmem, (neq_iff ps.1 ps.2).mp hne⟩
    · rintro ⟨ps, hmem, hcase⟩
      intro hall
      exact (neq_iff ps.1 ps.2).mpr hcase (hall ps hmem)

/-- C3 witness: on a concrete disk, verify mode leaves the disk untouched. -/
theorem spec_C3_witness : (process exDisk exNewFiles true).1 = exDisk :=
  (spec_C3 exDisk exNewFiles).1

/-- C4: generation is deterministic - `gen_public_wrappers_source` is a pure
function of the input descriptor and the parsed source tree, so two runs on
identical input produce byte-identical output text. -/
theorem spec_C4 (f1 f2 : File) (t1 t2 : Node) (hf : f1 = f2) (ht : t1 = t2) :
    gen_public_wrappers_source f1 t1 = gen_public_wrappers_source f2 t2 := by
  subst hf
  subst ht
  rfl

/-- C4 witness: two runs on the concrete fixture input agree. -/
theorem spec_C4_witness :
    gen_public_wrappers_source exFile nestedTree =
      gen_public_wrappers_source exFile nestedTree :=
  spec_C4 exFile exFile nestedTree nestedTree rfl rfl

/-- C5 (amended): `get_public_methods` yields exactly the marked function
nodes of the tree - the same collection, each exactly once, as a depth-first
traversal yields - but in the breadth-first level order of `ast.walk`, which
need not equal the depth-first (source-text) order. -/
theorem spec_C5 (t : Node) :
    (get_public_methods t).Perm ((dfs [t]).filter is_public) :=
  (walk_perm_dfs [t]).filter is_public

/-- C5 witness: the amended claim at the concrete nested tree. -/
theorem spec_C5_witness :
    (get_public_methods nestedTree).Perm ((dfs [nestedTree]).filter is_public) :=
  spec_C5 nestedTree

/-- C5 counterexample: on a tree whose marked method `h` sits one class
deeper than (and textually before) marked method `f`, the scanner yields
`f` before `h`, while the depth-first (source-text) order is `h` before
`f` - refuting the claim that the yield order is depth-first order. -/
theorem spec_C5_cex :
    (get_public_methods nestedTree).map nodeName = ["f", "h"] ∧
    ((dfs [nestedTree]).filter is_public).map nodeName = ["h", "f"] ∧
    (get_public_methods nestedTree).map nodeName ≠
      ((dfs [nestedTree]).filter is_public).map nodeName := by
  have h1 : (get_public_methods nestedTree).map nodeName = ["f", "h"] := by
    simp [get_public_methods, nestedTree, hNode, fNode, selfArgs, walk,
      children, is_public, isPublicDec, nodeName]
  have h2 : ((dfs [nestedTree]).filter is_public).map nodeName = ["h", "f"] := by
    simp [dfs, nestedTree, hNode, fNode, selfArgs, children, is_public,
      isPublicDec, nodeName]
  refine ⟨h1, h2, ?_⟩
  rw [h1, h2]
  decide

/-- C6: the first positional parameter (the receiver) is removed before the
generated parameter list and forwarding call are built (the transformed
record the loop hands to `create_passthrough_args` and the renderer carries
the tail of the parameter list), and a marked method with an empty parameter
list makes the loop fail with the IndexError of `method.args.args[0]`,
aborting the whole generation of the file. -/
theorem spec_C6 (file : File) (m : Method) :
    (m.args.args = [] → processMethod file m = .error .indexError) ∧
    (∀ a rest, m.args.args = a :: rest → a.arg = "self" →
      transformMethod m = .ok { m with
        args := { m.args with args := rest },
        decorator_list := [],
        body := newBody m.body }) ∧
    (∀ tree : Node,
      (∃ mm ∈ (get_public_methods tree).filterMap asMethod, mm.args.args = []) →
      ∃ e, gen_public_wrappers_source file tree = .error e) := by
  refine ⟨?_, ?_, ?_⟩
  · intro h
    exact processMethod_nilargs file m h
  · intro a rest h hs
    exact transformMethod_ok m a rest h hs
  · rintro tree ⟨mm, hmem, hargs⟩
    apply gen_error
    apply genSnippets_error
    exact ⟨mm, hmem, .indexError, processMethod_nilargs file mm hargs⟩

/-- C6 witness: the no-parameter method fails with IndexError, the receiver
is stripped from `g`, and a file whose only marked method has no parameters
makes the whole generation fail. -/
theorem spec_C6_witness :
    processMethod exFile noArgsMethod = .error .indexError ∧
    transformMethod exG = .ok { exG with
      args := { exG.args with args := [⟨"x"⟩] },
      decorator_list := [],
      body := newBody exG.body } ∧
    ∃ e, gen_public_wrappers_source exFile badTree = .error e :=
  ⟨(spec_C6 exFile noArgsMethod).1 rfl,
   (spec_C6 exFile exG).2.1 ⟨"self"⟩ [⟨"x"⟩] rfl rfl,
   (spec_C6 exFile noArgsMethod).2.2 badTree
     ⟨noArgsMethod,
      by simp [get_public_methods, badTree, badNode, walk, children,
        is_public, isPublicDec, asMethod, noArgsMethod],
      rfl⟩⟩

/-- C7: the replacement body computed by the loop keeps exactly the leading
docstring literal when the first body statement is one (and discards every
other statement), and is empty when there is no docstring - the generated
body never contains any other original statement. -/
theorem spec_C7 (body : List Node) :
    (∀ s rest, body = .exprstmt (.constant (.str s)) :: rest →
      newBody body = [.exprstmt (.constant (.str s))]) ∧
    (get_docstring body = none → newBody body = []) := by
  constructor
  · intro s rest h
    subst h
    simp [newBody, get_docstring]
  · intro h
    simp [newBody, h]

/-- C7 witness: a docstring-led body keeps only the docstring; a body with
no docstring is emptied. -/
theorem spec_C7_witness :
    newBody [.exprstmt (.constant (.str "doc")), .passstmt] =
      [Node.exprstmt (.constant (.str "doc"))] ∧
    newBody [Node.passstmt, Node.passstmt] = [] :=
  ⟨(spec_C7 _).1 "doc" [.passstmt] rfl, (spec_C7 _).2 rfl⟩

/-- C8: a node passes `is_public` exactly when it is an (async) function
definition one of whose decorators is literally the name `_public` (no
partial matching), and `get_public_methods` yields exactly the nodes of the
tree - at any nesting depth, membership in the depth-first enumeration -
that pass `is_public`. -/
theorem spec_C8 :
    (∀ n : Node, is_public n = true ↔
      (is_function n = true ∧ ∃ d ∈ decoratorsOf n, d = Node.nameexpr "_public")) ∧
    (∀ t n : Node, n ∈ get_public_methods t ↔
      (is_public n = true ∧ n ∈ dfs [t])) := by
  constructor
  · have hdec : ∀ d : Node, isPublicDec d = true ↔ d = Node.nameexpr "_public" := by
      intro d
      cases d <;> simp [isPublicDec]
    intro n
    cases n <;> simp [is_public, is_function, decoratorsOf, List.any_eq_true, hdec]
  · intro t n
    unfold get_public_methods
    rw [List.mem_filter]
    constructor
    · rintro ⟨h1, h2⟩
      exact ⟨h2, (walk_perm_dfs [t]).mem_iff.mp h1⟩
    · rintro ⟨h1, h2⟩
      exact ⟨(walk_perm_dfs [t]).mem_iff.mpr h2, h1⟩

/-- C8 witness: the marker characterization at the concrete marked node. -/
theorem spec_C8_witness :
    is_public fNode = true ↔
      (is_function fNode = true ∧
        ∃ d ∈ decoratorsOf fNode, d = Node.nameexpr "_public") :=
  spec_C8.1 fNode

/-- C9 (amended): the parsed tree is not read-only during processing - for
each marked method the loop rewrites the method node in place before
rendering: the receiver parameter is deleted, the decorator list is cleared,
and the body is truncated to its docstring (or to nothing); the tree remains
per-file and is discarded after synthesis. -/
theorem spec_C9 (m : Method) (a : Arg) (rest : List Arg)
    (h : m.args.args = a :: rest) (hs : a.arg = "self") :
    transformMethod m = .ok { m with
      args := { m.args with args := rest },
      decorator_list := [],
      body := newBody m.body } :=
  transformMethod_ok m a rest h hs

/-- C9 witness: the amended claim applied to the concrete method `f`. -/
theorem spec_C9_witness :
    transformMethod exF = .ok { exF with
      args := { exF.args with args := [⟨"x"⟩] },
      decorator_list := [],
      body := newBody exF.body } :=
  spec_C9 exF ⟨"self"⟩ [⟨"x"⟩] rfl rfl

/-- C9 counterexample: processing is not mutation-free - the method node
`g` of the parsed tree is changed by the pipeline: after the
rewriting step of the loop its parameter list and its decorator list differ
from those of the parsed node, refuting the claim that no component mutates
any node of the
tree between parsing and synthesis. -/
theorem spec_C9_cex :
    transformMethod exG = .ok exGT ∧
    exGT.args ≠ exG.args ∧
    exGT.decorator_list ≠ exG.decorator_list := by
  refine ⟨rfl, by decide, ?_⟩
  intro h
  exact List.noConfusion h

/-- C10: for a marked method that has parameters, the loop succeeds exactly
when the first parameter is named `self`; any other first-parameter name
fails the `assert method.args.args[0].arg == "self"` and aborts with an
AssertionError - strictly stronger than merely requiring some parameter. -/
theorem spec_C10 (file : File) (m : Method) (a : Arg) (rest : List Arg)
    (h : m.args.args = a :: rest) :
    ((∃ s, processMethod file m = .ok s) ↔ a.arg = "self") ∧
    (a.arg ≠ "self" → processMethod file m = .error .assertionError) := by
  constructor
  · constructor
    · rintro ⟨s, hok⟩
      by_contra hne
      rw [processMethod_assert file m a rest h hne] at hok
      cases hok
    · intro hs
      exact ⟨_, processMethod_ok file m _ (transformMethod_ok m a rest h hs)⟩
  · intro hne
    exact processMethod_assert file m a rest h hne

/-- C10 witness: a first parameter named `cls` aborts with AssertionError,
while `g` (first parameter `self`) generates successfully. -/
theorem spec_C10_witness :
    processMethod exFile clsMethod = .error .assertionError ∧
    ∃ s, processMethod exFile exG = .ok s :=
  ⟨(spec_C10 exFile clsMethod ⟨"cls"⟩ [⟨"x"⟩] rfl).2 (by decide),
   (spec_C10 exFile exG ⟨"self"⟩ [⟨"x"⟩] rfl).1.mpr rfl⟩

end GenExports
